import Mathlib

/-!
Verification development for `update.py`, the package-pin update tool of the
pac-nix repository.  Python strings are modelled as `List Char`; the network
and subprocess boundaries are modelled as oracle functions mapping a request
(URL or argv) to the textual response body.
-/

set_option maxRecDepth 10000

/-- Python strings are modelled as lists of characters. -/
abbrev Str := List Char

/-- Coerce a Lean string literal into the model's string type. -/
def lit (s : String) : Str := s.toList

/-! ### Python string primitives -/

/-- Model of Python `str.replace('\r', '')`: delete every carriage return. -/
def removeCR (s : Str) : Str := s.filter (fun c => c ≠ '\r')

/-- Leftmost index (relative to the given list) at which `pat` occurs as a
contiguous sublist, or `none`.  Mirrors the scan of Python `str.find`. -/
def findIdx (pat : Str) : Str → Option Nat
  | [] => if pat.isEmpty then some 0 else none
  | c :: rest =>
    if pat.isPrefixOf (c :: rest) then some 0
    else (findIdx pat rest).map (· + 1)

/-- Model of Python `str.find(sub, start)` including the clamping of a
negative `start` to `max(len + start, 0)` and the `-1` not-found sentinel. -/
def pyFind (pat : Str) (s : Str) (start : Int) : Int :=
  let base : Nat := if start < 0 then ((s.length : Int) + start).toNat else start.toNat
  match findIdx pat (s.drop base) with
  | some n => ((n + base : Nat) : Int)
  | none => -1

/-- Model of Python slicing `s[k:]` for a possibly negative `k`. -/
def pySliceFrom (s : Str) (k : Int) : Str :=
  if k < 0 then s.drop (((s.length : Int) + k).toNat) else s.drop k.toNat

/-- Auxiliary scan for Python `str.count`: the counter `skip` records how many
characters of the most recent match are still to be consumed, so occurrences
are counted greedily and without overlap, exactly as `str.count` does. -/
def countSubAux (pat : Str) : Str → Nat → Nat
  | [], _ => 0
  | c :: rest, 0 =>
    if pat.isPrefixOf (c :: rest) then countSubAux pat rest (pat.length - 1) + 1
    else countSubAux pat rest 0
  | _ :: rest, skip + 1 => countSubAux pat rest skip

/-- Model of Python `str.count(sub)`: non-overlapping occurrences, scanning
left to right; an empty pattern matches `len + 1` times. -/
def pyCount (pat s : Str) : Nat :=
  if pat.isEmpty then s.length + 1 else countSubAux pat s 0

/-- Model of Python `str.split(sep)` for a single-character separator. -/
def splitChar (sep : Char) : Str → List Str
  | [] => [[]]
  | c :: rest =>
    if c = sep then [] :: splitChar sep rest
    else
      match splitChar sep rest with
      | [] => [[c]]
      | f :: r => (c :: f) :: r

/-- Decimal digit character. -/
def digitChar (n : Nat) : Char := Char.ofNat (48 + n % 10)

/-- Fuelled decimal printer (the fuel argument only bounds recursion depth). -/
def natStrAux : Nat → Nat → Str
  | 0, _ => []
  | fuel + 1, n =>
    if n < 10 then [digitChar n]
    else natStrAux fuel (n / 10) ++ [digitChar n]

/-- Decimal rendering of a natural number, as Python `str(n)` produces. -/
def natStr (n : Nat) : Str := natStrAux (n + 1) n

/-! ### The package record and its URL builders, from `update.py` -/

/-- One upstream package, as in the `Package` dataclass of `update.py`.
`then'` models the source's `then` field (a Lean keyword). -/
structure Package where
  attr : Str
  repo : Str
  branch : Str := []
  then' : List Str := []
deriving DecidableEq, Repr

def Package.compare_permalink (p : Package) (base target : Str) : Str :=
  lit "https://github.com/" ++ p.repo ++ lit "/compare/" ++ base ++ lit "..." ++ target

def Package.compare_link (p : Package) (base : Str) : Str :=
  p.compare_permalink base p.branch

def Package.commits_atom (p : Package) : Str :=
  lit "https://github.com/" ++ p.repo ++ lit "/commits/" ++ p.branch ++ lit ".atom"

def Package.repo_git (p : Package) : Str :=
  lit "https://github.com/" ++ p.repo ++ lit ".git"

/-- The static registry, from the `PACKAGES` list of `update.py`. -/
def PACKAGES : List Package :=
  [ { attr := lit "asli", repo := lit "UQ-PAC/aslp" },
    { attr := lit "bap-asli-plugin", repo := lit "UQ-PAC/bap-asli-plugin" },
    { attr := lit "basil", repo := lit "UQ-PAC/bil-to-boogie-translator" },
    { attr := lit "bap-primus", repo := lit "UQ-PAC/bap", branch := lit "aarch64-pull-request-2" },
    { attr := lit "asl-translator", repo := lit "UQ-PAC/llvm-translator", branch := lit "main" },
    { attr := lit "gtirb-semantics", repo := lit "UQ-PAC/gtirb-semantics", branch := lit "main" },
    { attr := lit "alive2-aslp", repo := lit "katrinafyi/alive2", branch := lit "aslp" },
    { attr := lit "alive2-regehr", repo := lit "regehr/alive2", branch := lit "arm-tv" } ]

/-! ### Remote metadata client -/

/-- A remote metadata request: either an HTTP GET carrying headers, or a
subprocess invocation (the default-branch query runs `git ls-remote`). -/
inductive RemoteRequest where
  | http (url : Str) (headers : List (Str × Str))
  | proc (argv : List Str)
deriving DecidableEq, Repr

/-- Header construction of `curl_raw`: a bearer header is attached only when
the `GITHUB_TOKEN` environment variable is set and non-empty (Python's
truthiness test `if token:`). -/
def curl_headers (token : Option Str) : List (Str × Str) :=
  match token with
  | none => []
  | some t => if t.isEmpty then [] else [(lit "Authorization", lit "Bearer " ++ t)]

/-- The HTTP request issued by `curl_raw` for a URL under a given token. -/
def curl_request (token : Option Str) (url : Str) : RemoteRequest :=
  .http url (curl_headers token)

/-- The argv run by `Package.fetch_default_branch` (`git ls-remote --symref`). -/
def default_branch_argv (p : Package) : List Str :=
  [lit "git", lit "ls-remote", lit "--symref", p.repo_git, lit "HEAD"]

/-- The request issued by `Package.fetch_default_branch`: a subprocess, not
an HTTP GET, so it never carries `curl_raw`'s headers. -/
def default_branch_request (p : Package) : RemoteRequest :=
  .proc (default_branch_argv p)

/-- The request issued by `Package.fetch_latest_commit` (the Atom feed). -/
def atom_request (token : Option Str) (p : Package) : RemoteRequest :=
  curl_request token p.commits_atom

/-- The request issued by `Package.fetch_commits_behind` (the compare patch). -/
def compare_patch_request (token : Option Str) (p : Package) (base : Str) : RemoteRequest :=
  curl_request token (p.compare_link base ++ lit ".patch")

/-- Whether a request carries the bearer-authorization header for `t`. -/
def carriesBearer (r : RemoteRequest) (t : Str) : Prop :=
  match r with
  | .http _ headers => (lit "Authorization", lit "Bearer " ++ t) ∈ headers
  | .proc _ => False

instance (r : RemoteRequest) (t : Str) : Decidable (carriesBearer r t) := by
  unfold carriesBearer
  cases r with
  | http url headers => exact inferInstance
  | proc argv => exact inferInstance

/-- Parsing step of `Package.fetch_default_branch`:
`out.split('\t')[0].split('/')[-1]`. -/
def parse_default_branch (out : Str) : Str :=
  (splitChar '/' ((splitChar '\t' out).headD [])).getLastD []

/-- Model of `Package.fetch_default_branch`, with the subprocess modelled by the
oracle `proc` mapping an argv to the process's standard output. -/
def Package.fetch_default_branch (p : Package) (proc : List Str → Str) : Str :=
  parse_default_branch (proc (default_branch_argv p))

/-- The commit-count separator `'\n---\n'` of `Package.fetch_commits_behind`. -/
def sepPat : Str := lit "\n---\n"

/-- Model of `Package.fetch_commits_behind`, with the network modelled by the oracle
`fetch` mapping a URL to the response body:
`curl_raw(compare_link(base) + '.patch').replace('\r', '').count('\n---\n')`. -/
def Package.fetch_commits_behind (p : Package) (fetch : Str → Str) (base : Str) : Nat :=
  pyCount sepPat (removeCR (fetch (p.compare_link base ++ lit ".patch")))

/-- The first-entry commit-URL marker used by `fetch_latest_commit`. -/
def commitMarker (repo : Str) : Str :=
  lit "https://github.com/" ++ repo ++ lit "/commit/"

/-- Extraction core of `Package.fetch_latest_commit` applied to the fetched
Atom body: `left = out.find(marker, out.find('<entry>'))`, then
`out[left + len(marker):][:40]`. -/
def latest_from_atom (repo : Str) (out : Str) : Str :=
  let marker := commitMarker repo
  let left := pyFind marker out (pyFind (lit "<entry>") out 0)
  (pySliceFrom out (left + (marker.length : Int))).take 40

/-- Model of `Package.fetch_latest_commit`, with the network modelled by `fetch`. -/
def Package.fetch_latest_commit (p : Package) (fetch : Str → Str) : Str :=
  latest_from_atom p.repo (fetch p.commits_atom)

/-! ### Orchestrator: check mode -/

/-- The annotation line printed by `upgrade` in check mode: severity
`warning` when `total_commits != 0`, otherwise `notice`. -/
def checkNoteLine (p : Package) (total : Nat) (permalink : Str) : Str :=
  if total ≠ 0 then
    lit "::warning title=package outdated: " ++ p.attr ++ lit "::" ++ p.attr ++
      lit " differs by " ++ natStr total ++ lit " non-merge commits from " ++ p.branch ++
      lit " (" ++ permalink ++ lit ")"
  else
    lit "::notice title=package up to date: " ++ p.attr ++ lit "::" ++ p.attr ++
      lit " differs by " ++ natStr total ++ lit " non-merge commits from " ++ p.branch ++
      lit " (" ++ permalink ++ lit ")"

/-- The lines printed by the check-mode branch of `upgrade` for one package:
a blank line, the compare link, the annotation, a blank line.  `current` is
the pinned revision read from the flake. -/
def check_output (p : Package) (fetch : Str → Str) (current : Str) : List Str :=
  let total := p.fetch_commits_behind fetch current
  let latest := p.fetch_latest_commit fetch
  let permalink := p.compare_permalink current latest
  [[], lit "compare link: " ++ p.compare_link current, checkNoteLine p total permalink, []]

/-- The check-mode loop over the selected packages.  The pin oracle maps a
package's attr to its currently pinned revision. -/
def run_check (fetch : Str → Str) (pin : Str → Str) (ps : List Package) : List (List Str) :=
  ps.map (fun p => check_output p fetch (pin p.attr))

/-! ### Orchestrator: upgrade mode -/

/-- Model of `[x for x in args.rest if x not in ('--build', '--test')]`. -/
def strip_build_test (rest : List Str) : List Str :=
  rest.filter (fun x => !(x == lit "--build" || x == lit "--test"))

/-- The warning printed for a broken package in upgrade mode. -/
def warningBrokenLine (p : Package) : Str :=
  lit "::warning title=" ++ p.attr ++ lit " broken::will not build or test " ++
    p.attr ++ lit " during upgrade"

/-- The `nix-update` invocation built in upgrade mode. -/
def nix_update_argv (dir : Str) (p : Package) (rest : List Str) : List Str :=
  [lit "nix-update", lit "--flake", lit "-f", dir, p.attr, lit "--version",
    lit "branch=" ++ p.branch] ++ rest

/-- Everything observable about one package's upgrade-mode action:
the `args.rest` value at entry (`received`), the printed lines, the argvs
of the spawned subprocesses, and the `args.rest` value at exit (`rest'` —
the source assigns `args.rest` in place when the package is broken). -/
structure UpgradeResult where
  received : List Str
  notes : List Str
  cmds : List (List Str)
  rest' : List Str
deriving DecidableEq, Repr

/-- The upgrade-mode branch of `upgrade` for one package. -/
def upgrade_upgrade (dir : Str) (p : Package) (broken : Bool) (rest : List Str) :
    UpgradeResult :=
  let rest1 := if broken then strip_build_test rest else rest
  { received := rest
    notes := (if broken then [warningBrokenLine p] else []) ++
      p.then'.map (fun p2 => lit "testing downstream build of " ++ p2 ++ lit "...")
    cmds := nix_update_argv dir p rest1 ::
      p.then'.map (fun p2 => [lit "nix", lit "build", dir ++ lit "#" ++ p2, lit "--no-out-link"])
    rest' := rest1 }

/-- The upgrade-mode loop: `args.rest` is threaded because the source's
assignment `args.rest = [...]` mutates the shared `args` object. -/
def run_upgrade_loop (dir : Str) (broken : Package → Bool) :
    List Package → List Str → List UpgradeResult
  | [], _ => []
  | p :: ps, rest =>
    let r := upgrade_upgrade dir p (broken p) rest
    r :: run_upgrade_loop dir broken ps r.rest'

/-! ### CLI surface and main pipeline -/

/-- The mode values of the `Args` record (after the do-upgrade rewrite). -/
inductive Mode where
  | check
  | upgrade
deriving DecidableEq, Repr

/-- The three CLI-level mode values. -/
inductive CliMode where
  | check
  | upgrade
  | doUpgrade
deriving DecidableEq, Repr

/-- The parsed run configuration, as the `Args` dataclass of `update.py`. -/
structure Args where
  mode : Mode
  dir : Str
  rest : List Str
deriving DecidableEq, Repr

/-- The do-upgrade rewrite in `__main__`: `do-upgrade` becomes `upgrade`
with `['--build', '--commit', '--test']` prepended to `args.rest`. -/
def rewrite_do_upgrade : CliMode → List Str → Mode × List Str
  | .check, rest => (.check, rest)
  | .upgrade, rest => (.upgrade, rest)
  | .doUpgrade, rest => (.upgrade, lit "--build" :: lit "--commit" :: lit "--test" :: rest)

/-- The branch-resolution step of `__main__`: a package with an empty branch
has it backfilled from `fetch_default_branch`, once. -/
def resolve_branch (proc : List Str → Str) (p : Package) : Package :=
  if p.branch.isEmpty then { p with branch := p.fetch_default_branch proc } else p

/-- Observable output of a whole run. -/
inductive RunOutput where
  | checked (blocks : List (List Str))
  | upgraded (results : List UpgradeResult)
deriving DecidableEq, Repr

/-- The `__main__` pipeline: default the attr filter, filter the registry,
apply the do-upgrade rewrite, resolve branches, then run the per-package
loop for the resulting mode. -/
def run_main (cli : CliMode) (attrs : List Str) (dir : Str) (rest : List Str)
    (fetch : Str → Str) (proc : List Str → Str) (pin : Str → Str)
    (broken : Package → Bool) : RunOutput :=
  let attrs' := if attrs.isEmpty then PACKAGES.map (fun p => p.attr) else attrs
  let pkgs := PACKAGES.filter (fun p => attrs'.contains p.attr)
  let mr := rewrite_do_upgrade cli rest
  let pkgs := pkgs.map (resolve_branch proc)
  match mr.1 with
  | .check => .checked (run_check fetch pin pkgs)
  | .upgrade => .upgraded (run_upgrade_loop dir broken pkgs mr.2)

/-! ### Supporting lemmas: the greedy occurrence count of `str.count` -/

lemma countSubAux_skip (pat : Str) : ∀ (t : Str) (k : Nat),
    countSubAux pat t k = countSubAux pat (t.drop k) 0 := by
  intro t
  induction t with
  | nil => intro k; cases k <;> rfl
  | cons c rest ih =>
    intro k
    cases k with
    | zero => rfl
    | succ k => simpa [countSubAux, List.drop_succ_cons] using ih k

lemma countSubAux_cons_pos {pat : Str} {c : Char} {t : Str}
    (h : pat.isPrefixOf (c :: t) = true) :
    countSubAux pat (c :: t) 0 = countSubAux pat t (pat.length - 1) + 1 := by
  simp [countSubAux, h]

lemma countSubAux_cons_neg {pat : Str} {c : Char} {t : Str}
    (h : ¬ pat <+: (c :: t)) :
    countSubAux pat (c :: t) 0 = countSubAux pat t 0 := by
  have hb : pat.isPrefixOf (c :: t) = false := by
    rw [← Bool.not_eq_true, List.isPrefixOf_iff_prefix]
    exact h
  simp [countSubAux, hb]

lemma countSubAux_zero_of_no_occurrence (pat : Str) :
    ∀ s : Str, (∀ i < s.length, ¬ pat <+: s.drop i) → countSubAux pat s 0 = 0 := by
  intro s
  induction s with
  | nil => intro _; rfl
  | cons c rest ih =>
    intro h
    rw [countSubAux_cons_neg (by simpa using h 0 (by simp))]
    exact ih (fun i hi => by
      simpa [List.drop_succ_cons] using h (i + 1) (by simp only [List.length_cons]; omega))

lemma countSubAux_first_occurrence (pat : Str) (hpat : pat ≠ []) :
    ∀ (pre rest : Str), (∀ i < pre.length, ¬ pat <+: (pre ++ pat ++ rest).drop i) →
    countSubAux pat (pre ++ pat ++ rest) 0 = countSubAux pat rest 0 + 1 := by
  intro pre
  induction pre with
  | nil =>
    intro rest _
    cases hp : pat with
    | nil => exact absurd hp hpat
    | cons a pa =>
      subst hp
      show countSubAux (a :: pa) (a :: (pa ++ rest)) 0 = countSubAux (a :: pa) rest 0 + 1
      have hpf : (a :: pa).isPrefixOf (a :: (pa ++ rest)) = true := by
        rw [List.isPrefixOf_iff_prefix]
        exact List.prefix_append (a :: pa) rest
      rw [countSubAux_cons_pos hpf]
      have hskip := countSubAux_skip (a :: pa) (pa ++ rest) ((a :: pa).length - 1)
      simp only [List.length_cons, Nat.add_sub_cancel] at hskip ⊢
      rw [hskip, List.drop_left]
  | cons c pre' ih =>
    intro rest h
    show countSubAux pat (c :: (pre' ++ pat ++ rest)) 0 = countSubAux pat rest 0 + 1
    rw [countSubAux_cons_neg (by simpa using h 0 (by simp))]
    exact ih rest (fun i hi => by
      simpa [List.drop_succ_cons] using h (i + 1) (by simp only [List.length_cons]; omega))

/-- Spec-side occurrence structure: `SepOccs pat s K` says `s` contains
exactly `K` occurrences of the separator `pat` in the left-to-right,
non-overlapping sense: either `pat` occurs nowhere in `s`, or `s` splits as
`pre ++ pat ++ rest` at the first occurrence with `K - 1` further
occurrences in `rest`. -/
inductive SepOccs (pat : Str) : Str → Nat → Prop where
  | base (s : Str) (h : ∀ i < s.length, ¬ pat <+: s.drop i) : SepOccs pat s 0
  | step (pre rest : Str) (K : Nat)
      (h : ∀ i < pre.length, ¬ pat <+: (pre ++ pat ++ rest).drop i)
      (hrest : SepOccs pat rest K) :
      SepOccs pat (pre ++ pat ++ rest) (K + 1)

lemma pyCount_of_sepOccs (pat : Str) (hpat : pat ≠ []) :
    ∀ {s : Str} {K : Nat}, SepOccs pat s K → pyCount pat s = K := by
  have hne : pat.isEmpty = false := by
    cases pat with
    | nil => exact absurd rfl hpat
    | cons a pa => rfl
  intro s K h
  induction h with
  | base s h =>
    simp [pyCount, hne, countSubAux_zero_of_no_occurrence pat s h]
  | step pre rest K h hrest ih =>
    simp only [pyCount, hne, Bool.false_eq_true, if_false] at ih ⊢
    rw [countSubAux_first_occurrence pat hpat pre rest h, ih]

/-- The `basil` registry entry (branch unset at construction). -/
def basil : Package :=
  { attr := lit "basil", repo := lit "UQ-PAC/bil-to-boogie-translator" }

/-- Claim C1: for every package and base revision, `fetch_commits_behind`
returns exactly the number of occurrences of the separator `'\n---\n'` in
the carriage-return-stripped patch body fetched for the comparison; in
particular it returns `K` when the stripped body contains exactly `K`
occurrences, and `0` when the patch body is empty. -/
theorem fetch_commits_behind_counts_separators :
    (∀ (p : Package) (fetch : Str → Str) (base : Str) (K : Nat),
      SepOccs sepPat (removeCR (fetch (p.compare_link base ++ lit ".patch"))) K →
      p.fetch_commits_behind fetch base = K)
    ∧ (∀ (p : Package) (fetch : Str → Str) (base : Str),
        fetch (p.compare_link base ++ lit ".patch") = [] →
        p.fetch_commits_behind fetch base = 0) := by
  constructor
  · intro p fetch base K h
    exact pyCount_of_sepOccs sepPat (by decide) h
  · intro p fetch base h
    unfold Package.fetch_commits_behind
    rw [h]
    decide

/-- Patch oracle used by the C1 witness: a body with two separators. -/
def c1fetch : Str → Str := fun _ => lit "aaa\n---\nbbb\n---\nccc"

/-- Patch oracle used by the C1 witness: an empty body. -/
def c1fetchEmpty : Str → Str := fun _ => []

theorem fetch_commits_behind_counts_separators_witness :
    basil.fetch_commits_behind c1fetch (lit "abc123") = 2
    ∧ basil.fetch_commits_behind c1fetchEmpty (lit "abc123") = 0 := by
  constructor
  · apply fetch_commits_behind_counts_separators.1
    have h2 : SepOccs sepPat (lit "ccc") 0 := SepOccs.base _ (by decide)
    have h1 : SepOccs sepPat (lit "bbb" ++ sepPat ++ lit "ccc") 1 :=
      SepOccs.step _ _ _ (by decide) h2
    have e : removeCR (c1fetch (basil.compare_link (lit "abc123") ++ lit ".patch"))
        = lit "aaa" ++ sepPat ++ (lit "bbb" ++ sepPat ++ lit "ccc") := by decide
    rw [e]
    exact SepOccs.step _ _ _ (by decide) h1
  · exact fetch_commits_behind_counts_separators.2 basil c1fetchEmpty (lit "abc123") rfl

/-! ### Supporting lemmas: `str.find` and slicing -/

lemma findIdx_eq_some (pat : Str) : ∀ (s : Str) (n : Nat), findIdx pat s = some n →
    pat <+: s.drop n ∧ ∀ m < n, ¬ pat <+: s.drop m := by
  intro s
  induction s with
  | nil =>
    intro n h
    simp only [findIdx] at h
    by_cases hp : pat.isEmpty
    · rw [if_pos hp] at h
      obtain rfl : 0 = n := Option.some.inj h
      have : pat = [] := by cases pat with
        | nil => rfl
        | cons a t => simp [List.isEmpty] at hp
      refine ⟨?_, by omega⟩
      rw [this]
      exact List.nil_prefix
    · rw [if_neg hp] at h
      cases h
  | cons c rest ih =>
    intro n h
    simp only [findIdx] at h
    by_cases hp : pat.isPrefixOf (c :: rest) = true
    · rw [if_pos hp] at h
      obtain rfl : 0 = n := Option.some.inj h
      exact ⟨by simpa using (List.isPrefixOf_iff_prefix).1 hp, by omega⟩
    · rw [if_neg hp] at h
      rcases Option.map_eq_some'.1 h with ⟨n', hn', rfl⟩
      obtain ⟨hpre, hmin⟩ := ih n' hn'
      refine ⟨by simpa [List.drop_succ_cons] using hpre, ?_⟩
      intro m hm
      cases m with
      | zero =>
        simpa using fun hcon => hp ((List.isPrefixOf_iff_prefix).2 (by simpa using hcon))
      | succ m' =>
        simpa [List.drop_succ_cons] using hmin m' (by omega)

lemma pyFind_nonneg_spec {pat s : Str} {start : Int} {l : Nat}
    (h : pyFind pat s start = (l : Int)) :
    pat <+: s.drop l := by
  simp only [pyFind] at h
  generalize hB : (if start < 0 then ((s.length : Int) + start).toNat else start.toNat) = B at h
  cases hfi : findIdx pat (s.drop B) with
  | none =>
    simp only [hfi] at h
    exact absurd h (by omega)
  | some n =>
    simp only [hfi] at h
    have hl : l = B + n := by omega
    obtain ⟨hpre, _⟩ := findIdx_eq_some pat (s.drop B) n hfi
    rw [List.drop_drop] at hpre
    rw [hl]
    exact hpre

lemma pySliceFrom_ofNat (s : Str) (k : Nat) : pySliceFrom s (k : Int) = s.drop k := by
  simp [pySliceFrom]

/-- Hexadecimal digit test (the spec's notion; the code never checks it). -/
def isHexChar (c : Char) : Bool :=
  ('0' ≤ c && c ≤ '9') || ('a' ≤ c && c ≤ 'f') || ('A' ≤ c && c ≤ 'F')

/-- Claim C4: when the Atom feed has a first entry — the commit-URL marker is
found (at index `l`) when searched from the first `<entry>` tag — and at
least 40 characters follow the marker, `fetch_latest_commit`'s extraction
returns exactly the 40 characters immediately following that marker; if
those characters are hexadecimal the result is a 40-character hex string. -/
theorem latest_commit_extracts_forty (repo out : Str) (l : Nat)
    (hfind : pyFind (commitMarker repo) out (pyFind (lit "<entry>") out 0) = (l : Int))
    (hroom : l + (commitMarker repo).length + 40 ≤ out.length)
    (hhex : ∀ c ∈ (out.drop (l + (commitMarker repo).length)).take 40, isHexChar c = true) :
    latest_from_atom repo out = (out.drop (l + (commitMarker repo).length)).take 40
    ∧ (latest_from_atom repo out).length = 40
    ∧ (∀ c ∈ latest_from_atom repo out, isHexChar c = true)
    ∧ commitMarker repo <+: out.drop l := by
  have hpre := pyFind_nonneg_spec hfind
  have e1 : latest_from_atom repo out = (out.drop (l + (commitMarker repo).length)).take 40 := by
    simp only [latest_from_atom]
    rw [hfind]
    rw [show ((l : Int) + ((commitMarker repo).length : Int))
        = ((l + (commitMarker repo).length : Nat) : Int) by push_cast; ring]
    rw [pySliceFrom_ofNat]
  refine ⟨e1, ?_, ?_, hpre⟩
  · rw [e1, List.length_take, List.length_drop]
    omega
  · intro c hc
    rw [e1] at hc
    exact hhex c hc

/-- Concrete Atom feed for the C4 witness. -/
def c4repo : Str := lit "o/r"

def c4hex : Str := lit "0123456789abcdef0123456789abcdef01234567"

def c4feed : Str := lit "<entry>https://github.com/o/r/commit/" ++ c4hex ++ lit "</entry>"

theorem latest_commit_extracts_forty_witness :
    latest_from_atom c4repo c4feed = c4hex
    ∧ (latest_from_atom c4repo c4feed).length = 40 := by
  have h := latest_commit_extracts_forty c4repo c4feed 7 (by decide) (by decide) (by decide)
  exact ⟨by rw [h.1]; decide, h.2.1⟩

/-- An Atom body whose first-entry commit URL is followed by non-hex text. -/
def c10body : Str := lit "<entry>https://github.com/o/r/commit/" ++ List.replicate 40 'z'

/-- Claim C10: `fetch_latest_commit`'s extraction is total over the response
body and always returns at most 40 characters (the `-1` sentinel of `find`
is absorbed by the slice arithmetic), and it does not validate that the
returned characters are hexadecimal. -/
theorem latest_commit_total_and_unvalidated :
    (∀ (repo out : Str), (latest_from_atom repo out).length ≤ 40)
    ∧ (latest_from_atom (lit "o/r") c10body).length = 40
    ∧ (latest_from_atom (lit "o/r") c10body).all isHexChar = false
    ∧ latest_from_atom (lit "o/r") (lit "no entry marker here") = [] := by
  refine ⟨?_, by decide, by decide, by decide⟩
  intro repo out
  simp only [latest_from_atom]
  rw [List.length_take]
  omega

/-! ### Supporting lemmas: the emitted annotation line -/

lemma infix_of_eq_append {l s : Str} (a c : Str) (h : s = a ++ (l ++ c)) : l <:+: s :=
  ⟨a, c, by rw [List.append_assoc]; exact h.symm⟩

/-- The annotation line actually emitted in check mode for a package, as a
function of the pinned revision and the network oracle: the severity depends
on the computed `total_commits` and the permalink's target is the fetched
latest commit. -/
def check_annotation_line (p : Package) (fetch : Str → Str) (current : Str) : Str :=
  checkNoteLine p (p.fetch_commits_behind fetch current)
    (p.compare_permalink current (p.fetch_latest_commit fetch))

lemma checkNoteLine_eq (p : Package) (total : Nat) (permalink : Str) :
    checkNoteLine p total permalink =
      (if total ≠ 0 then lit "::warning title=package outdated: "
        else lit "::notice title=package up to date: ") ++
      (p.attr ++ (lit "::" ++ (p.attr ++ (lit " differs by " ++ (natStr total ++
        (lit " non-merge commits from " ++ (p.branch ++ (lit " (" ++
          (permalink ++ lit ")"))))))))) := by
  unfold checkNoteLine
  by_cases h : total ≠ 0
  · rw [if_pos h, if_pos h]; simp [List.append_assoc]
  · rw [if_neg h, if_neg h]; simp [List.append_assoc]

lemma checkNoteLine_warning {p : Package} {total : Nat} {permalink : Str} (h : total ≠ 0) :
    lit "::warning" <+: checkNoteLine p total permalink := by
  rw [checkNoteLine_eq, if_pos h]
  exact List.IsPrefix.trans (by decide) (List.prefix_append _ _)

lemma checkNoteLine_notice {p : Package} {total : Nat} {permalink : Str} (h : total = 0) :
    lit "::notice" <+: checkNoteLine p total permalink := by
  rw [checkNoteLine_eq, if_neg (by omega)]
  exact List.IsPrefix.trans (by decide) (List.prefix_append _ _)

lemma checkNoteLine_attr {p : Package} {total : Nat} {permalink : Str} :
    p.attr <:+: checkNoteLine p total permalink :=
  infix_of_eq_append _ _ (checkNoteLine_eq p total permalink)

lemma checkNoteLine_count {p : Package} {total : Nat} {permalink : Str} :
    natStr total <:+: checkNoteLine p total permalink :=
  infix_of_eq_append
    ((if total ≠ 0 then lit "::warning title=package outdated: "
        else lit "::notice title=package up to date: ") ++
      p.attr ++ lit "::" ++ p.attr ++ lit " differs by ")
    (lit " non-merge commits from " ++ (p.branch ++ (lit " (" ++ (permalink ++ lit ")"))))
    (by rw [checkNoteLine_eq]; simp [List.append_assoc])

lemma checkNoteLine_branch {p : Package} {total : Nat} {permalink : Str} :
    p.branch <:+: checkNoteLine p total permalink :=
  infix_of_eq_append
    ((if total ≠ 0 then lit "::warning title=package outdated: "
        else lit "::notice title=package up to date: ") ++
      p.attr ++ lit "::" ++ p.attr ++ lit " differs by " ++ natStr total ++
      lit " non-merge commits from ")
    (lit " (" ++ (permalink ++ lit ")"))
    (by rw [checkNoteLine_eq]; simp [List.append_assoc])

lemma checkNoteLine_permalink {p : Package} {total : Nat} {permalink : Str} :
    permalink <:+: checkNoteLine p total permalink :=
  infix_of_eq_append
    ((if total ≠ 0 then lit "::warning title=package outdated: "
        else lit "::notice title=package up to date: ") ++
      p.attr ++ lit "::" ++ p.attr ++ lit " differs by " ++ natStr total ++
      lit " non-merge commits from " ++ p.branch ++ lit " (")
    (lit ")")
    (by rw [checkNoteLine_eq]; simp [List.append_assoc])

/-- Claim C2: in check mode, for every package and regardless of processing
order, the emitted annotation line has severity `warning` when
`total_commits != 0` and `notice` when it is `0`, and the line embeds the
package identifier, the commit count, and the branch name. -/
theorem check_annotation_severity :
    ∀ (fetch : Str → Str) (pin : Str → Str) (ps : List Package) (p : Package),
      p ∈ ps →
      check_output p fetch (pin p.attr) ∈ run_check fetch pin ps
      ∧ check_output p fetch (pin p.attr) =
          [[], lit "compare link: " ++ p.compare_link (pin p.attr),
            check_annotation_line p fetch (pin p.attr), []]
      ∧ (p.fetch_commits_behind fetch (pin p.attr) ≠ 0 →
          lit "::warning" <+: check_annotation_line p fetch (pin p.attr))
      ∧ (p.fetch_commits_behind fetch (pin p.attr) = 0 →
          lit "::notice" <+: check_annotation_line p fetch (pin p.attr))
      ∧ p.attr <:+: check_annotation_line p fetch (pin p.attr)
      ∧ natStr (p.fetch_commits_behind fetch (pin p.attr)) <:+:
          check_annotation_line p fetch (pin p.attr)
      ∧ p.branch <:+: check_annotation_line p fetch (pin p.attr) := by
  intro fetch pin ps p hmem
  refine ⟨List.mem_map_of_mem _ hmem, rfl, ?_, ?_, checkNoteLine_attr,
    checkNoteLine_count, checkNoteLine_branch⟩
  · exact fun h => checkNoteLine_warning h
  · exact fun h => checkNoteLine_notice h

/-- The `basil` package after branch resolution, as in the spec's example. -/
def basilMain : Package := { basil with branch := lit "main" }

/-- Atom feed for the concrete check-mode scenario: latest commit
`"deadbeef" * 5` (40 characters). -/
def c3atom : Str :=
  lit "<entry>https://github.com/UQ-PAC/bil-to-boogie-translator/commit/" ++
    lit "deadbeefdeadbeefdeadbeefdeadbeefdeadbeef" ++ lit "</entry>"

/-- Compare patch body with exactly three `'\n---\n'` separators. -/
def c3patch : Str := lit "subject\n---\ndiff1\n---\ndiff2\n---\ndiff3"

/-- Network oracle for the concrete check-mode scenario. -/
def c3fetch : Str → Str := fun url =>
  if url = basilMain.commits_atom then c3atom
  else if url = basilMain.compare_link (lit "abc123") ++ lit ".patch" then c3patch
  else []

theorem check_annotation_severity_witness :
    lit "::warning" <+: check_annotation_line basilMain c3fetch (lit "abc123")
    ∧ check_output basilMain c3fetch (lit "abc123") ∈
        run_check c3fetch (fun _ => lit "abc123") [basilMain] := by
  have h := check_annotation_severity c3fetch (fun _ => lit "abc123") [basilMain] basilMain
    (by simp)
  exact ⟨h.2.2.1 (by decide), h.1⟩

/-- Claim C3 (amended): in check mode the comparison permalink embedded in
the emitted annotation line is
`https://github.com/<owner>/<repo>/compare/<base>...<latest>`, where
`<base>` is the currently pinned revision and `<latest>` is the commit id
fetched by `fetch_latest_commit` — not the branch name.  The branch-targeted
compare URL appears only on the separate `compare link:` output line. -/
theorem check_permalink_uses_latest :
    ∀ (p : Package) (fetch : Str → Str) (current : Str),
      p.compare_permalink current (p.fetch_latest_commit fetch) <:+:
        check_annotation_line p fetch current
      ∧ check_output p fetch current =
          [[], lit "compare link: " ++ p.compare_link current,
            check_annotation_line p fetch current, []]
      ∧ (∀ base target, p.compare_permalink base target =
          lit "https://github.com/" ++ p.repo ++ lit "/compare/" ++ base ++
            lit "..." ++ target)
      ∧ p.compare_link current = p.compare_permalink current p.branch := by
  intro p fetch current
  exact ⟨checkNoteLine_permalink, rfl, fun base target => rfl, rfl⟩

/-- Counterexample to claim C3 as stated: for `basil` pinned at `abc123`
with branch `main` and fetched latest commit `"deadbeef" * 5`, the emitted
annotation line does not contain the branch-targeted permalink
`https://github.com/UQ-PAC/bil-to-boogie-translator/compare/abc123...main`. -/
theorem check_permalink_branch_claim_false :
    ¬ (lit "https://github.com/UQ-PAC/bil-to-boogie-translator/compare/abc123...main" <:+:
        check_annotation_line basilMain c3fetch (lit "abc123")) := by
  decide

/-! ### Upgrade mode: broken-package stripping and rest threading -/

/-- Claim C5: in upgrade mode a broken package gets a warning annotation and
the arguments forwarded to `nix-update` contain neither `--build` nor
`--test`, while all other pass-through arguments are kept in their original
relative order (the forwarded tail is an order-preserving sublist of the
caller's list retaining every other element). -/
theorem broken_upgrade_strips_build_test :
    ∀ (dir : Str) (p : Package) (rest : List Str),
      (upgrade_upgrade dir p true rest).notes =
        warningBrokenLine p ::
          p.then'.map (fun p2 => lit "testing downstream build of " ++ p2 ++ lit "...")
      ∧ (upgrade_upgrade dir p true rest).cmds.headD [] =
          nix_update_argv dir p (strip_build_test rest)
      ∧ lit "--build" ∉ strip_build_test rest
      ∧ lit "--test" ∉ strip_build_test rest
      ∧ List.Sublist (strip_build_test rest) rest
      ∧ (∀ x ∈ rest, x ≠ lit "--build" → x ≠ lit "--test" → x ∈ strip_build_test rest) := by
  intro dir p rest
  refine ⟨rfl, rfl, ?_, ?_, List.filter_sublist _, ?_⟩
  · intro h
    simp [strip_build_test, List.mem_filter] at h
  · intro h
    simp [strip_build_test, List.mem_filter] at h
  · intro x hx h1 h2
    exact List.mem_filter.2 ⟨hx, by simp [h1, h2]⟩

/-- Pass-through arguments for the C5 witness. -/
def c5rest : List Str := [lit "--build", lit "--commit", lit "--test"]

theorem broken_upgrade_strips_build_test_witness :
    lit "--commit" ∈ strip_build_test c5rest
    ∧ (upgrade_upgrade (lit ".") basilMain true c5rest).cmds.headD [] =
        nix_update_argv (lit ".") basilMain (strip_build_test c5rest) := by
  have h := broken_upgrade_strips_build_test (lit ".") basilMain c5rest
  exact ⟨h.2.2.2.2.2 (lit "--commit") (by decide) (by decide) (by decide), h.2.1⟩

lemma run_upgrade_loop_length (dir : Str) (broken : Package → Bool) :
    ∀ (ps : List Package) (rest : List Str),
      (run_upgrade_loop dir broken ps rest).length = ps.length := by
  intro ps
  induction ps with
  | nil => intro rest; rfl
  | cons p tl ih => intro rest; simp [run_upgrade_loop, ih]

lemma strip_build_test_idem (rest : List Str) :
    strip_build_test (strip_build_test rest) = strip_build_test rest := by
  simp [strip_build_test, List.filter_filter]

/-- Claim C6 (amended): `mode` and `dir` are fixed for the run, but `rest`
is not immutable after the do-upgrade rewrite: processing a broken package
in upgrade mode persistently filters `--build`/`--test` out of the shared
`args.rest`, so a later package receives the filtered list.  Precisely: the
`i`-th package's action receives `strip_build_test rest` if any earlier
selected package was broken, and the original `rest` otherwise. -/
theorem upgrade_loop_rest_threading :
    ∀ (dir : Str) (broken : Package → Bool) (ps : List Package) (rest : List Str) (i : Nat),
      i < ps.length →
      ((run_upgrade_loop dir broken ps rest).getD i ⟨[], [], [], []⟩).received =
        if (ps.take i).any broken then strip_build_test rest else rest := by
  intro dir broken ps
  induction ps with
  | nil =>
    intro rest i h
    exact absurd h (by simp)
  | cons p tl ih =>
    intro rest i h
    cases i with
    | zero => simp [run_upgrade_loop, upgrade_upgrade]
    | succ i =>
      have h' : i < tl.length := by simpa using h
      simp only [run_upgrade_loop, List.getD_cons_succ]
      rw [ih _ i h']
      cases hb : broken p with
      | true =>
        simp [upgrade_upgrade, hb, List.take_succ_cons, List.any_cons,
          strip_build_test_idem]
      | false =>
        simp [upgrade_upgrade, hb, List.take_succ_cons, List.any_cons]

/-- First package of the C6 scenario (broken). -/
def c6p1 : Package := { attr := lit "p1", repo := lit "o/r1", branch := lit "b1" }

/-- Second package of the C6 scenario (not broken). -/
def c6p2 : Package := { attr := lit "p2", repo := lit "o/r2", branch := lit "b2" }

/-- Broken oracle of the C6 scenario: only `p1` is broken. -/
def c6broken : Package → Bool := fun p => p.attr == lit "p1"

/-- Counterexample to claim C6 as stated: with a broken first package and
caller-supplied rest `["--build", "--commit"]`, the first package's action
receives that list but the second package's action does not — the source's
`args.rest = [...]` assignment mutates the shared `args` object. -/
theorem args_rest_claim_false :
    ((run_upgrade_loop (lit ".") c6broken [c6p1, c6p2] [lit "--build", lit "--commit"]).getD 0
        ⟨[], [], [], []⟩).received = [lit "--build", lit "--commit"]
    ∧ ((run_upgrade_loop (lit ".") c6broken [c6p1, c6p2] [lit "--build", lit "--commit"]).getD 1
        ⟨[], [], [], []⟩).received ≠ [lit "--build", lit "--commit"] := by
  constructor <;> decide

theorem upgrade_loop_rest_threading_witness :
    ((run_upgrade_loop (lit ".") c6broken [c6p1, c6p2] [lit "--build", lit "--commit"]).getD 1
        ⟨[], [], [], []⟩).received = [lit "--commit"] := by
  have h := upgrade_loop_rest_threading (lit ".") c6broken [c6p1, c6p2]
    [lit "--build", lit "--commit"] 1 (by decide)
  rw [h]
  decide

/-- Claim C7: a run in `do-upgrade` mode is identical to a run in `upgrade`
mode with `--build --commit --test` prepended to the caller's pass-through
arguments, for every attr filter, directory and oracle. -/
theorem do_upgrade_is_sugar :
    ∀ (attrs : List Str) (dir : Str) (rest : List Str) (fetch : Str → Str)
      (proc : List Str → Str) (pin : Str → Str) (broken : Package → Bool),
      run_main .doUpgrade attrs dir rest fetch proc pin broken =
        run_main .upgrade attrs dir
          (lit "--build" :: lit "--commit" :: lit "--test" :: rest) fetch proc pin broken := by
  intro attrs dir rest fetch proc pin broken
  rfl

/-! ### Supporting lemmas: `str.split` and the default-branch parse -/

lemma splitChar_ne_nil (sep : Char) : ∀ s : Str, splitChar sep s ≠ [] := by
  intro s
  induction s with
  | nil => simp [splitChar]
  | cons c rest ih =>
    by_cases hc : c = sep
    · simp [splitChar, hc]
    · simp only [splitChar, if_neg hc]
      cases hsp : splitChar sep rest with
      | nil => exact absurd hsp ih
      | cons f r => simp

lemma splitChar_headD (sep : Char) : ∀ s : Str,
    (splitChar sep s).headD [] = s.takeWhile (fun c => c ≠ sep) := by
  intro s
  induction s with
  | nil => rfl
  | cons c rest ih =>
    by_cases hc : c = sep
    · simp [splitChar, hc, List.takeWhile_cons]
    · cases hsp : splitChar sep rest with
      | nil => exact absurd hsp (splitChar_ne_nil sep rest)
      | cons f r =>
        rw [hsp] at ih
        simp only [splitChar, if_neg hc, hsp, List.headD_cons, List.takeWhile_cons]
        simp only [List.headD_cons] at ih
        simp [hc, ih]

/-- Spec-side reading of `fetch_default_branch`'s final step: the text after
the last occurrence of the separator (the ref path's final segment). -/
def lastSeg (sep : Char) : Str → Str
  | [] => []
  | c :: rest => if c = sep ∨ sep ∈ rest then lastSeg sep rest else c :: rest

/-- Spec-side reading of the first tab-separated field of the response. -/
def firstFieldSpec (s : Str) : Str := s.takeWhile (fun c => c ≠ '\t')

lemma splitChar_no_sep (sep : Char) : ∀ s : Str, sep ∉ s → splitChar sep s = [s] := by
  intro s
  induction s with
  | nil => intro _; rfl
  | cons c rest ih =>
    intro hmem
    have hc : ¬ c = sep := fun he => hmem (by rw [he]; exact List.mem_cons_self _ _)
    have hrest : sep ∉ rest := fun hm => hmem (List.mem_cons_of_mem _ hm)
    simp only [splitChar, if_neg hc, ih hrest]

lemma splitChar_len_ge_two (sep : Char) : ∀ s : Str, sep ∈ s → 2 ≤ (splitChar sep s).length := by
  intro s
  induction s with
  | nil => intro h; cases h
  | cons c rest ih =>
    intro hmem
    by_cases hc : c = sep
    · have hlen : 0 < (splitChar sep rest).length :=
        List.length_pos.2 (splitChar_ne_nil sep rest)
      simp only [splitChar, if_pos hc, List.length_cons]
      omega
    · have hmem' : sep ∈ rest := by
        rcases List.mem_cons.1 hmem with h1 | h2
        · exact absurd h1.symm hc
        · exact h2
      cases hsp : splitChar sep rest with
      | nil => exact absurd hsp (splitChar_ne_nil sep rest)
      | cons f r =>
        have h2 := ih hmem'
        rw [hsp] at h2
        simp only [splitChar, if_neg hc, hsp, List.length_cons] at h2 ⊢
        omega

lemma splitChar_getLastD (sep : Char) : ∀ s : Str,
    (splitChar sep s).getLastD [] = lastSeg sep s := by
  intro s
  induction s with
  | nil => rfl
  | cons c rest ih =>
    by_cases hc : c = sep
    · simp only [splitChar, if_pos hc, List.getLastD_cons, ih]
      rw [lastSeg, if_pos (Or.inl hc)]
    · cases hsp : splitChar sep rest with
      | nil => exact absurd hsp (splitChar_ne_nil sep rest)
      | cons f r =>
        cases r with
        | nil =>
          have hnot : sep ∉ rest := by
            intro hmem
            have h2 := splitChar_len_ge_two sep rest hmem
            rw [hsp] at h2
            simp at h2
          have hf : f = rest := by
            have he := splitChar_no_sep sep rest hnot
            rw [hsp] at he
            exact (List.cons_eq_cons.1 he).1
          simp only [splitChar, if_neg hc, hsp, List.getLastD_cons, List.getLastD_nil]
          rw [lastSeg, if_neg (by push_neg; exact ⟨hc, hnot⟩), hf]
        | cons f2 r2 =>
          have hmem : sep ∈ rest := by
            by_contra hnot
            have he := splitChar_no_sep sep rest hnot
            rw [hsp] at he
            simp at he
          rw [hsp] at ih
          simp only [splitChar, if_neg hc, hsp, List.getLastD_cons] at ih ⊢
          rw [lastSeg, if_pos (Or.inr hmem), ← ih]

/-- Claim C8: the code's default-branch parse equals the final path segment
(text after the last `/`) of the first tab-separated field of the response;
after the startup resolution loop every selected package's branch is
non-empty (given well-formed responses for the initially-unset ones), an
already-set branch is never touched, an unset branch is set to the parsed
segment, and resolution is idempotent (the field is mutated at most once). -/
theorem branch_resolution_sound :
    (∀ out : Str, parse_default_branch out = lastSeg '/' (firstFieldSpec out))
    ∧ (∀ (proc : List Str → Str) (ps : List Package),
        (∀ p ∈ ps, p.branch = [] →
          lastSeg '/' (firstFieldSpec (proc (default_branch_argv p))) ≠ []) →
        ∀ q ∈ ps.map (resolve_branch proc), q.branch ≠ [])
    ∧ (∀ (proc : List Str → Str) (p : Package), p.branch ≠ [] → resolve_branch proc p = p)
    ∧ (∀ (proc : List Str → Str) (p : Package), p.branch = [] →
        (resolve_branch proc p).branch =
          lastSeg '/' (firstFieldSpec (proc (default_branch_argv p))))
    ∧ (∀ (proc : List Str → Str) (p : Package), (resolve_branch proc p).branch ≠ [] →
        resolve_branch proc (resolve_branch proc p) = resolve_branch proc p) := by
  have hparse : ∀ out : Str, parse_default_branch out = lastSeg '/' (firstFieldSpec out) := by
    intro out
    unfold parse_default_branch firstFieldSpec
    rw [splitChar_headD, splitChar_getLastD]
  have hset : ∀ (proc : List Str → Str) (p : Package), p.branch = [] →
      (resolve_branch proc p).branch =
        lastSeg '/' (firstFieldSpec (proc (default_branch_argv p))) := by
    intro proc p hb
    rw [resolve_branch, if_pos (by simp [hb])]
    exact hparse _
  have hkeep : ∀ (proc : List Str → Str) (p : Package), p.branch ≠ [] →
      resolve_branch proc p = p := by
    intro proc p hb
    rw [resolve_branch, if_neg (by simpa [List.isEmpty_iff] using hb)]
  refine ⟨hparse, ?_, hkeep, hset, fun proc p h => hkeep proc _ h⟩
  intro proc ps hresp q hq
  rcases List.mem_map.1 hq with ⟨p, hp, rfl⟩
  by_cases hb : p.branch = []
  · rw [hset proc p hb]
    exact hresp p hp hb
  · rw [hkeep proc p hb]
    exact hb

/-- Symbolic-HEAD response oracle for the C8 witness. -/
def c8proc : List Str → Str := fun _ => lit "ref: refs/heads/main\tHEAD\n0123abc\tHEAD"

theorem branch_resolution_sound_witness :
    (resolve_branch c8proc basil).branch = lit "main"
    ∧ (resolve_branch c8proc basil).branch ≠ [] := by
  have h4 := branch_resolution_sound.2.2.2.1 c8proc basil rfl
  constructor
  · rw [h4]; decide
  · rw [h4]; decide

/-! ### The authorization header -/

/-- Counterexample to claim C9 as stated: the default-branch query is a
`git ls-remote` subprocess invocation, so even with `GITHUB_TOKEN` set it
carries no bearer-authorization header. -/
theorem default_branch_query_bears_no_token :
    ¬ carriesBearer (default_branch_request basil) (lit "sometoken") :=
  fun h => h

/-- Claim C9 (amended): the HTTP requests issued through `curl_raw` — the
Atom-feed fetch and the compare-patch fetch — carry the header
`Authorization: Bearer <token>` exactly when the token is set and non-empty,
and are sent with no headers when the token is unset or empty; the
default-branch query is a subprocess and never carries the header. -/
theorem bearer_header_on_curl_requests :
    ∀ (p : Package) (base t : Str),
      (t ≠ [] →
        atom_request (some t) p = .http p.commits_atom
            [(lit "Authorization", lit "Bearer " ++ t)]
        ∧ compare_patch_request (some t) p base =
            .http (p.compare_link base ++ lit ".patch")
              [(lit "Authorization", lit "Bearer " ++ t)])
      ∧ atom_request none p = .http p.commits_atom []
      ∧ compare_patch_request none p base = .http (p.compare_link base ++ lit ".patch") []
      ∧ atom_request (some []) p = .http p.commits_atom []
      ∧ compare_patch_request (some []) p base =
          .http (p.compare_link base ++ lit ".patch") []
      ∧ ¬ carriesBearer (default_branch_request p) t := by
  intro p base t
  refine ⟨?_, rfl, rfl, rfl, rfl, fun h => h⟩
  intro ht
  have he : t.isEmpty = false := by
    cases t with
    | nil => exact absurd rfl ht
    | cons a b => rfl
  constructor <;>
    simp [atom_request, compare_patch_request, curl_request, curl_headers, he]

theorem bearer_header_on_curl_requests_witness :
    atom_request (some (lit "tok")) basil =
      .http basil.commits_atom [(lit "Authorization", lit "Bearer " ++ lit "tok")] :=
  ((bearer_header_on_curl_requests basil (lit "abc") (lit "tok")).1 (by decide)).1
